import Mathlib

/-!
Verification of the `nuxt` package (version 3.2.3) against its
natural-language specification.

The only executable source of the repository snapshot is
`packages/nuxi/src/run.ts`, which dispatches a CLI subcommand through the
command registry.  We embed it shallowly: JavaScript values become an
inductive `JSValue`, the `args` object produced by `mri` becomes an
association list, a command is a function from the argument object to an
`Except` result, and the registry is a partial map from command names to
lazily-loaded commands.  `runCommandT` additionally records the trace of
`invoke` calls so that claims about which command code runs can be stated.

Subsystems of the repository that are referenced by the specification but
whose code is not part of the snapshot (the deep-merge based configuration
resolution, the head-tag merge/dedup layer, the lifecycle hook runner and
the dev-server watch loop) are modelled from the specification text; each
such definition carries a doc comment starting with "Modelled from the
spec:".
-/

/-- A JavaScript runtime value, as far as the CLI layer needs it. -/
inductive JSValue where
  | undefined : JSValue
  | null : JSValue
  | bool (b : Bool) : JSValue
  | num (n : Int) : JSValue
  | str (s : String) : JSValue
  | strs (xs : List String) : JSValue
deriving Repr, DecidableEq

/-- First-match lookup in an association list keyed by strings, the shallow
embedding of reading a property of a plain JavaScript object. -/
def lookupKey {α : Type} : List (String × α) → String → Option α
  | [], _ => none
  | (k, v) :: rest, key => if k = key then some v else lookupKey rest key

/-- The `args` object returned by `mri(argv)` and mutated by `runCommand`:
a string-keyed record of flag values. -/
def Args : Type := List (String × JSValue)

/-- Reading `args.k`; a missing property reads as `undefined`. -/
def Args.get (a : Args) (key : String) : JSValue :=
  match lookupKey a key with
  | some v => v
  | none => JSValue.undefined

/-- The assignment `args.k = v`: the new binding shadows any earlier one. -/
def Args.set (a : Args) (key : String) (v : JSValue) : Args :=
  (key, v) :: a

/-- A loaded CLI command (`NuxtCommand` of `./commands`): its `invoke`
either returns a result of type `ρ` or fails with an error of type `ε`. -/
structure NuxtCommand (ε ρ : Type) where
  invoke : Args → Except ε ρ

/-- The command registry `commands` of `./commands`: a name maps to `none`
when it is not a key of the registry object (so that reading it yields
`undefined`), and to `some c` when the registered loader resolves to `c`,
where `c = none` embeds a falsy resolved value. -/
def Registry (ε ρ : Type) : Type :=
  String → Option (Option (NuxtCommand ε ρ))

/-- The `options` argument of `runCommand`; only `options.config` is read. -/
structure Options where
  config : JSValue

/-- An error escaping `runCommand`: a `TypeError` raised by calling a
non-function, an `Error` constructed with `new Error(msg)`, or an error
raised by the underlying command's `invoke`. -/
inductive JSError (ε : Type) where
  | typeError (msg : String) : JSError ε
  | jsError (msg : String) : JSError ε
  | raised (e : ε) : JSError ε
deriving Repr, DecidableEq

/-- The argument object that `runCommand` builds before dispatching:
`const args = mri(argv); args.clear = false; args.config = options.config`
(run.ts lines 6-8). -/
def argsOf (mriParse : List String → Args) (argv : List String)
    (options : Options) : Args :=
  Args.set (Args.set (mriParse argv) "clear" (JSValue.bool false)) "config"
    options.config

/-- Shallow embedding of `runCommand` (run.ts lines 5-14), instrumented: the
second component records the argument object of every `invoke` call made.
Reading a name that is not a key of the registry yields `undefined`, and
`commands[command]()` then raises a `TypeError` before the `!cmd` guard is
ever reached; a registered loader resolving to a falsy value reaches the
guard and raises `new Error` with the invalid-command message; otherwise
the command's `invoke` is called on the argument object and its outcome is
returned, errors included, with no handler installed around it. -/
def runCommandT {ε ρ : Type} (commands : Registry ε ρ)
    (mriParse : List String → Args) (command : String) (argv : List String)
    (options : Options) : Except (JSError ε) ρ × List Args :=
  let args := argsOf mriParse argv options
  match commands command with
  | none =>
      (Except.error (JSError.typeError "commands[command] is not a function"),
        [])
  | some none =>
      (Except.error (JSError.jsError ("Invalid command " ++ command)), [])
  | some (some cmd) =>
      match cmd.invoke args with
      | Except.ok r => (Except.ok r, [args])
      | Except.error e => (Except.error (JSError.raised e), [args])

/-- `runCommand` itself: the returned (or thrown) value, trace forgotten. -/
def runCommand {ε ρ : Type} (commands : Registry ε ρ)
    (mriParse : List String → Args) (command : String) (argv : List String)
    (options : Options) : Except (JSError ε) ρ :=
  (runCommandT commands mriParse command argv options).1

/-! Concrete fixtures used by witness theorems: a registry holding a
command that succeeds, a command that fails, and a registered name whose
loader resolves to a falsy value. -/

/-- A concrete stand-in for `mri`: it stores the raw argv under `_`. -/
def mri0 : List String → Args :=
  fun argv => [("_", JSValue.strs argv)]

/-- Concrete options value. -/
def opts0 : Options :=
  { config := JSValue.str "nuxt.config.ts" }

/-- A command whose `invoke` succeeds. -/
def devCmd : NuxtCommand String Nat :=
  { invoke := fun _ => Except.ok 0 }

/-- A command whose `invoke` fails. -/
def failCmd : NuxtCommand String Nat :=
  { invoke := fun _ => Except.error "listen EADDRINUSE" }

/-- Concrete registry: `dev` loads `devCmd`, `fail` loads `failCmd`,
`broken` is registered but its loader resolves to a falsy value, and any
other name is not a key of the registry. -/
def cmds0 : Registry String Nat := fun name =>
  if name = "dev" then some (some devCmd)
  else if name = "fail" then some (some failCmd)
  else if name = "broken" then some none
  else none

/-- Claim C1: when the registry maps the command name to a command, the
dispatch returns exactly the outcome of that command's `invoke` applied to
the argument object parsed from argv; no subcommand is handled inline. -/
theorem runCommand_dispatches_through_registry {ε ρ : Type}
    (commands : Registry ε ρ) (mriParse : List String → Args)
    (command : String) (argv : List String) (options : Options)
    (cmd : NuxtCommand ε ρ) (h : commands command = some (some cmd)) :
    runCommand commands mriParse command argv options =
      Except.mapError JSError.raised
        (cmd.invoke (argsOf mriParse argv options)) := by
  unfold runCommand runCommandT
  rw [h]
  cases hinv : cmd.invoke (argsOf mriParse argv options) <;>
    simp [hinv, Except.mapError]

/-- Witness for C1 at the concrete registry. -/
theorem runCommand_dispatches_through_registry_witness :
    runCommand cmds0 mri0 "dev" ["--port", "3001"] opts0 =
      Except.mapError JSError.raised
        (devCmd.invoke (argsOf mri0 ["--port", "3001"] opts0)) :=
  runCommand_dispatches_through_registry cmds0 mri0 "dev" ["--port", "3001"]
    opts0 devCmd rfl

/-- Every argument object recorded in the `invoke` trace is the one built
by lines 6-8 of run.ts. -/
theorem trace_mem_eq_argsOf {ε ρ : Type} (commands : Registry ε ρ)
    (mriParse : List String → Args) (command : String) (argv : List String)
    (options : Options) (a : Args)
    (ha : a ∈ (runCommandT commands mriParse command argv options).2) :
    a = argsOf mriParse argv options := by
  unfold runCommandT at ha
  cases h : commands command with
  | none => rw [h] at ha; simp at ha
  | some c =>
    cases c with
    | none => rw [h] at ha; simp at ha
    | some cmd =>
      rw [h] at ha
      cases hinv : cmd.invoke (argsOf mriParse argv options) <;>
        simp [hinv] at ha <;> exact ha

/-- Reading back the key just assigned yields the assigned value. -/
theorem Args.get_set_same (a : Args) (k : String) (v : JSValue) :
    (a.set k v).get k = v := by
  simp [Args.get, Args.set, lookupKey]

/-- An assignment leaves every other key unchanged. -/
theorem Args.get_set_other (a : Args) (k key : String) (v : JSValue)
    (h : ¬k = key) : (a.set k v).get key = a.get key := by
  simp [Args.get, Args.set, lookupKey, h]

/-- Claim C2 (failing input): for a command name that is not a key of the
registry, `runCommand` does fail, but the error is the `TypeError` raised
by calling the `undefined` registry entry, not the intended
`Error("Invalid command <command>")` — the `!cmd` guard of run.ts line 10
is reached only after `commands[command]()` has already been called. -/
theorem runCommand_unknown_name_raises_typeError :
    runCommand cmds0 mri0 "bogus" [] opts0 =
        Except.error (JSError.typeError "commands[command] is not a function")
      ∧ runCommand cmds0 mri0 "bogus" [] opts0 ≠
        Except.error (JSError.jsError ("Invalid command " ++ "bogus")) := by
  constructor
  · rfl
  · intro h
    exact JSError.noConfusion (Except.error.inj h)

/-- Claim C3: when the looked-up command's `invoke` fails, `runCommand`
fails with exactly that error; no handler, retry or recovery intervenes. -/
theorem runCommand_forwards_invoke_error {ε ρ : Type}
    (commands : Registry ε ρ) (mriParse : List String → Args)
    (command : String) (argv : List String) (options : Options)
    (cmd : NuxtCommand ε ρ) (e : ε) (h : commands command = some (some cmd))
    (he : cmd.invoke (argsOf mriParse argv options) = Except.error e) :
    runCommand commands mriParse command argv options =
      Except.error (JSError.raised e) := by
  unfold runCommand runCommandT
  rw [h]
  simp [he]

/-- Witness for C3 at the concrete failing command. -/
theorem runCommand_forwards_invoke_error_witness :
    runCommand cmds0 mri0 "fail" [] opts0 =
      Except.error (JSError.raised "listen EADDRINUSE") :=
  runCommand_forwards_invoke_error cmds0 mri0 "fail" [] opts0 failCmd
    "listen EADDRINUSE" rfl rfl

/-- Claim C4: every argument object passed to an `invoke` call has
`clear = false` and `config = options.config`, for every argv and options:
the two assignments of run.ts lines 7-8 override anything `mri` parsed. -/
theorem runCommand_overrides_clear_and_config {ε ρ : Type}
    (commands : Registry ε ρ) (mriParse : List String → Args)
    (command : String) (argv : List String) (options : Options) (a : Args)
    (ha : a ∈ (runCommandT commands mriParse command argv options).2) :
    a.get "clear" = JSValue.bool false ∧ a.get "config" = options.config := by
  have hargs := trace_mem_eq_argsOf commands mriParse command argv options a ha
  subst hargs
  unfold argsOf
  constructor
  · rw [Args.get_set_other _ _ _ _ (by decide), Args.get_set_same]
  · rw [Args.get_set_same]

/-- Witness for C4: the argument object of the concrete dispatch. -/
theorem runCommand_overrides_clear_and_config_witness :
    (argsOf mri0 ["--clear", "--config", "other.ts"] opts0).get "clear" =
        JSValue.bool false
      ∧ (argsOf mri0 ["--clear", "--config", "other.ts"] opts0).get
        "config" = opts0.config := by
  have hm : argsOf mri0 ["--clear", "--config", "other.ts"] opts0 ∈
      (runCommandT cmds0 mri0 "dev" ["--clear", "--config", "other.ts"]
        opts0).2 :=
    List.mem_singleton.mpr rfl
  exact runCommand_overrides_clear_and_config cmds0 mri0 "dev"
    ["--clear", "--config", "other.ts"] opts0 _ hm

/-- Claim C5: on every key other than `clear` and `config`, the argument
object passed to an `invoke` call agrees with the object `mri` parsed from
argv: the two overrides touch nothing else. -/
theorem runCommand_preserves_other_args {ε ρ : Type}
    (commands : Registry ε ρ) (mriParse : List String → Args)
    (command : String) (argv : List String) (options : Options) (a : Args)
    (ha : a ∈ (runCommandT commands mriParse command argv options).2)
    (k : String) (hk1 : k ≠ "clear") (hk2 : k ≠ "config") :
    a.get k = (mriParse argv).get k := by
  have hargs := trace_mem_eq_argsOf commands mriParse command argv options a ha
  subst hargs
  unfold argsOf
  rw [Args.get_set_other _ _ _ _ (fun h => hk2 h.symm),
    Args.get_set_other _ _ _ _ (fun h => hk1 h.symm)]

/-- Witness for C5 at the key `port`. -/
theorem runCommand_preserves_other_args_witness :
    (argsOf mri0 ["--port", "3001"] opts0).get "port" =
      (mri0 ["--port", "3001"]).get "port" := by
  have hm : argsOf mri0 ["--port", "3001"] opts0 ∈
      (runCommandT cmds0 mri0 "dev" ["--port", "3001"] opts0).2 :=
    List.mem_singleton.mpr rfl
  exact runCommand_preserves_other_args cmds0 mri0 "dev" ["--port", "3001"]
    opts0 _ hm "port" (by decide) (by decide)

/-- Claim C6: the `Invalid command` error is raised exactly when the
registered loader resolves to a falsy command, and on that path no
command's `invoke` runs (the recorded trace of `invoke` calls is empty). -/
theorem runCommand_invalid_command_iff {ε ρ : Type}
    (commands : Registry ε ρ) (mriParse : List String → Args)
    (command : String) (argv : List String) (options : Options) :
    ((runCommandT commands mriParse command argv options).1 =
        Except.error (JSError.jsError ("Invalid command " ++ command)) ↔
      commands command = some none)
    ∧ (commands command = some none →
      (runCommandT commands mriParse command argv options).2 = []) := by
  constructor
  · constructor
    · intro h
      unfold runCommandT at h
      cases hc : commands command with
      | none => rw [hc] at h; simp at h
      | some c =>
        cases c with
        | none => rfl
        | some cmd =>
          rw [hc] at h
          cases hinv : cmd.invoke (argsOf mriParse argv options) <;>
            simp [hinv] at h
    · intro h
      unfold runCommandT
      rw [h]
  · intro h
    unfold runCommandT
    rw [h]

/-- Witness for C6 at the registered-but-falsy entry `broken`. -/
theorem runCommand_invalid_command_iff_witness :
    (runCommandT cmds0 mri0 "broken" [] opts0).1 =
        Except.error (JSError.jsError ("Invalid command " ++ "broken"))
      ∧ (runCommandT cmds0 mri0 "broken" [] opts0).2 = [] :=
  ⟨(runCommand_invalid_command_iff cmds0 mri0 "broken" [] opts0).1.mpr rfl,
    (runCommand_invalid_command_iff cmds0 mri0 "broken" [] opts0).2 rfl⟩

/-! Configuration resolution.  The deep-merge based configuration loading
of the repository (`loadNuxtConfig`, built on the `defu` dependency of
package.json line 56) is not part of the source snapshot, so it is
modelled from the specification text: a nested key-value structure, merged
recursively, earlier sources taking precedence over later defaults. -/

/-- Modelled from the spec: a node of the nested key-value configuration
structure (`nuxt.config.*` contents, module defaults, CLI flags). -/
inductive ConfigValue where
  | prim (v : JSValue) : ConfigValue
  | obj (fields : List (String × ConfigValue)) : ConfigValue

/-- Removing every binding of a key from an association list. -/
def removeKey {α : Type} : List (String × α) → String → List (String × α)
  | [], _ => []
  | (k, v) :: rest, key =>
      if k = key then removeKey rest key else (k, v) :: removeKey rest key

/-- Removing one key does not change the lookup of any other key. -/
theorem lookupKey_removeKey {α : Type} (l : List (String × α))
    (key k : String) (h : ¬k = key) :
    lookupKey (removeKey l key) k = lookupKey l k := by
  induction l with
  | nil => rfl
  | cons p rest ih =>
    obtain ⟨k1, v1⟩ := p
    by_cases h1 : k1 = key
    · subst h1
      rw [removeKey, if_pos rfl, ih, lookupKey,
        if_neg (fun hh => h hh.symm)]
    · rw [removeKey, if_neg h1, lookupKey, lookupKey]
      by_cases h2 : k1 = k
      · rw [if_pos h2, if_pos h2]
      · rw [if_neg h2, if_neg h2, ih]

mutual

/-- Modelled from the spec: the deep-merge utility (a `defu`-style merge):
two nested objects are merged recursively, and at every other shape the
earlier source takes precedence over the later defaults. -/
def defu : ConfigValue → ConfigValue → ConfigValue
  | ConfigValue.prim v, _ => ConfigValue.prim v
  | ConfigValue.obj src, ConfigValue.obj dfts =>
      ConfigValue.obj (defuFields src dfts)
  | ConfigValue.obj src, ConfigValue.prim _ => ConfigValue.obj src
termination_by c _ => sizeOf c

/-- Modelled from the spec: field-wise recursive merge of two objects: a
key of the source is merged with the default bound to the same key when
there is one, and the defaults for keys the source does not bind are kept. -/
def defuFields : List (String × ConfigValue) → List (String × ConfigValue) →
    List (String × ConfigValue)
  | [], dfts => dfts
  | (k, v) :: rest, dfts =>
      match lookupKey dfts k with
      | some d => (k, defu v d) :: defuFields rest (removeKey dfts k)
      | none => (k, v) :: defuFields rest dfts
termination_by src _ => sizeOf src

end

/-- Modelled from the spec: the resolved configuration is the deep merge
of the user config files, the module defaults and the CLI flags, earlier
sources taking precedence over later defaults. -/
def resolveConfig (user moduleDefaults cliFlags : ConfigValue) :
    ConfigValue :=
  defu user (defu moduleDefaults cliFlags)

/-- Reading one key of a configuration node; a primitive has no keys. -/
def ConfigValue.get? : ConfigValue → String → Option ConfigValue
  | ConfigValue.obj fields, key => lookupKey fields key
  | ConfigValue.prim _, _ => none

/-- Key-wise characterisation of the field merge: a key bound by the
source maps to its value recursively merged with the default bound to the
same key (or to the source value alone when the defaults do not bind it),
and a key the source does not bind keeps its default. -/
theorem defuFields_lookupKey (src dfts : List (String × ConfigValue))
    (k : String) :
    lookupKey (defuFields src dfts) k =
      match lookupKey src k with
      | some v =>
          some (match lookupKey dfts k with
            | some d => defu v d
            | none => v)
      | none => lookupKey dfts k := by
  induction src generalizing dfts with
  | nil => simp [defuFields, lookupKey]
  | cons p rest ih =>
    obtain ⟨k1, v1⟩ := p
    cases hd : lookupKey dfts k1 with
    | some d =>
      rw [defuFields, hd]
      by_cases hk : k1 = k
      · subst hk
        rw [lookupKey, if_pos rfl, lookupKey, if_pos rfl, hd]
      · rw [lookupKey, if_neg hk, ih,
          lookupKey_removeKey _ _ _ (fun hh => hk hh.symm), lookupKey,
          if_neg hk]
    | none =>
      rw [defuFields, hd]
      by_cases hk : k1 = k
      · subst hk
        rw [lookupKey, if_pos rfl, lookupKey, if_pos rfl, hd]
      · rw [lookupKey, if_neg hk, ih, lookupKey, if_neg hk]

/-- Claim C7: the resolved configuration is the deep merge of user config,
module defaults and CLI flags: nested objects are merged key-wise and
recursively, and at a primitive the earlier source takes precedence. -/
theorem resolveConfig_is_recursive_deep_merge :
    (∀ user moduleDefaults cliFlags : ConfigValue,
      resolveConfig user moduleDefaults cliFlags =
        defu user (defu moduleDefaults cliFlags))
    ∧ (∀ (src dfts : List (String × ConfigValue)) (k : String),
      (defu (ConfigValue.obj src) (ConfigValue.obj dfts)).get? k =
        match lookupKey src k with
        | some v =>
            some (match lookupKey dfts k with
              | some d => defu v d
              | none => v)
        | none => lookupKey dfts k)
    ∧ (∀ (v : JSValue) (d : ConfigValue),
      defu (ConfigValue.prim v) d = ConfigValue.prim v) := by
  refine ⟨fun _ _ _ => rfl, fun src dfts k => ?_, fun v d => by rw [defu]⟩
  rw [defu]
  show lookupKey (defuFields src dfts) k = _
  exact defuFields_lookupKey src dfts k

/-! Head management.  The `MetaObject` interface is taken from the Types
section of the SEO documentation page of the repository (part_001 lines
153-164); the merge and deduplication of the contributed head objects is
performed by the external head-management library (`@vueuse/head` /
`unhead`, package.json lines 50-53) and is therefore modelled from the
specification text. -/

/-- A head tag (one entry of `link`, `meta`, `style`, `script` or
`noscript`): its attribute record. -/
abbrev HeadTag : Type := List (String × String)

/-- An attribute record for `htmlAttrs` / `bodyAttrs`. -/
abbrev HeadAttrs : Type := List (String × String)

/-- The `titleTemplate` field: a string with a `%s` placeholder, or a
function of the page title. -/
inductive TitleTemplate where
  | str (s : String) : TitleTemplate
  | fn (f : Option String → String) : TitleTemplate

/-- The head configuration object, field for field the `MetaObject`
interface of the documentation. -/
structure MetaObject where
  title : Option String
  titleTemplate : Option TitleTemplate
  base : Option HeadTag
  link : Option (List HeadTag)
  meta : Option (List HeadTag)
  style : Option (List HeadTag)
  script : Option (List HeadTag)
  noscript : Option (List HeadTag)
  htmlAttrs : Option HeadAttrs
  bodyAttrs : Option HeadAttrs

/-- The head object with no field set. -/
def emptyMeta : MetaObject :=
  ⟨none, none, none, none, none, none, none, none, none, none⟩

/-- Modelled from the spec: merging two optional tag lists appends the
contributed tags after those already collected. -/
def combineTagLists (a b : Option (List HeadTag)) : Option (List HeadTag) :=
  match a, b with
  | none, none => none
  | some x, none => some x
  | none, some y => some y
  | some x, some y => some (x ++ y)

/-- Modelled from the spec: object-merge of two head objects: a scalar
field set by the later contribution overrides the earlier one, and the tag
lists of the two are appended. -/
def mergeMeta (acc contrib : MetaObject) : MetaObject where
  title := contrib.title.orElse (fun _ => acc.title)
  titleTemplate := contrib.titleTemplate.orElse (fun _ => acc.titleTemplate)
  base := contrib.base.orElse (fun _ => acc.base)
  link := combineTagLists acc.link contrib.link
  meta := combineTagLists acc.meta contrib.meta
  style := combineTagLists acc.style contrib.style
  script := combineTagLists acc.script contrib.script
  noscript := combineTagLists acc.noscript contrib.noscript
  htmlAttrs := contrib.htmlAttrs.orElse (fun _ => acc.htmlAttrs)
  bodyAttrs := contrib.bodyAttrs.orElse (fun _ => acc.bodyAttrs)

/-- Modelled from the spec: deduplication of a tag list, keeping the first
occurrence of every tag; `seen` accumulates the tags already emitted. -/
def dedupeTagsAux : List HeadTag → List HeadTag → List HeadTag
  | _, [] => []
  | seen, t :: rest =>
      if t ∈ seen then dedupeTagsAux seen rest
      else t :: dedupeTagsAux (t :: seen) rest

/-- Modelled from the spec: deduplicating a tag list. -/
def dedupeTags (l : List HeadTag) : List HeadTag :=
  dedupeTagsAux [] l

/-- Modelled from the spec: the final document head: the contributed head
objects are object-merged in order and the resulting tag lists are
deduplicated. -/
def finalHead (contribs : List MetaObject) : MetaObject :=
  let m := contribs.foldl mergeMeta emptyMeta
  { m with
    link := m.link.map dedupeTags
    meta := m.meta.map dedupeTags
    style := m.style.map dedupeTags
    script := m.script.map dedupeTags
    noscript := m.noscript.map dedupeTags }

/-- The tag list denoted by an optional field: an absent field contributes
no tags. -/
def tagsOf (o : Option (List HeadTag)) : List HeadTag :=
  o.getD []

/-- Combining optional tag lists appends the denoted lists. -/
theorem tagsOf_combineTagLists (a b : Option (List HeadTag)) :
    tagsOf (combineTagLists a b) = tagsOf a ++ tagsOf b := by
  cases a <;> cases b <;> simp [combineTagLists, tagsOf]

/-- Folding the object-merge over the contributions concatenates all the
contributed `meta` tag lists, in order. -/
theorem foldl_mergeMeta_meta (cs : List MetaObject) (acc : MetaObject) :
    tagsOf (cs.foldl mergeMeta acc).meta =
      tagsOf acc.meta ++ (cs.map (fun c => tagsOf c.meta)).flatten := by
  induction cs generalizing acc with
  | nil => simp
  | cons c cs ih =>
    rw [List.foldl_cons, ih]
    show tagsOf (combineTagLists acc.meta c.meta) ++ _ = _
    rw [tagsOf_combineTagLists]
    simp [List.append_assoc]

/-- Folding the object-merge over the contributions concatenates all the
contributed `link` tag lists, in order. -/
theorem foldl_mergeMeta_link (cs : List MetaObject) (acc : MetaObject) :
    tagsOf (cs.foldl mergeMeta acc).link =
      tagsOf acc.link ++ (cs.map (fun c => tagsOf c.link)).flatten := by
  induction cs generalizing acc with
  | nil => simp
  | cons c cs ih =>
    rw [List.foldl_cons, ih]
    show tagsOf (combineTagLists acc.link c.link) ++ _ = _
    rw [tagsOf_combineTagLists]
    simp [List.append_assoc]

/-- Membership in the deduplicated list: exactly the tags of the input
that were not already emitted. -/
theorem mem_dedupeTagsAux (l : List HeadTag) (seen : List HeadTag)
    (t : HeadTag) :
    t ∈ dedupeTagsAux seen l ↔ t ∈ l ∧ t ∉ seen := by
  induction l generalizing seen with
  | nil => simp [dedupeTagsAux]
  | cons u rest ih =>
    rw [dedupeTagsAux]
    by_cases hu : u ∈ seen
    · rw [if_pos hu, ih]
      constructor
      · rintro ⟨h1, h2⟩
        exact ⟨List.mem_cons_of_mem _ h1, h2⟩
      · rintro ⟨h1, h2⟩
        rcases List.mem_cons.mp h1 with h | h
        · subst h; exact absurd hu h2
        · exact ⟨h, h2⟩
    · rw [if_neg hu]
      constructor
      · intro h
        rcases List.mem_cons.mp h with h | h
        · subst h; exact ⟨List.mem_cons_self _ _, hu⟩
        · obtain ⟨h1, h2⟩ := (ih (u :: seen)).mp h
          exact ⟨List.mem_cons_of_mem _ h1,
            fun hs => h2 (List.mem_cons_of_mem _ hs)⟩
      · rintro ⟨h1, h2⟩
        rcases List.mem_cons.mp h1 with h | h
        · subst h; exact List.mem_cons_self _ _
        · by_cases ht : t = u
          · subst ht; exact List.mem_cons_self _ _
          · refine List.mem_cons_of_mem _ ((ih (u :: seen)).mpr ⟨h, ?_⟩)
            intro hs
            rcases List.mem_cons.mp hs with hh | hh
            · exact ht hh
            · exact h2 hh

/-- The deduplicated list has no duplicates. -/
theorem nodup_dedupeTagsAux (l : List HeadTag) (seen : List HeadTag) :
    (dedupeTagsAux seen l).Nodup := by
  induction l generalizing seen with
  | nil => simp [dedupeTagsAux]
  | cons u rest ih =>
    rw [dedupeTagsAux]
    by_cases hu : u ∈ seen
    · rw [if_pos hu]; exact ih seen
    · rw [if_neg hu]
      refine List.nodup_cons.mpr ⟨?_, ih (u :: seen)⟩
      intro hmem
      exact ((mem_dedupeTagsAux rest (u :: seen) u).mp hmem).2
        (List.mem_cons_self _ _)

/-- The denoted list of an optional tag list after deduplication. -/
theorem tagsOf_map_dedupeTags (o : Option (List HeadTag)) :
    tagsOf (o.map dedupeTags) = dedupeTags (tagsOf o) := by
  cases o <;> simp [tagsOf, dedupeTags, dedupeTagsAux]

/-- Claim C8: the head configuration object consists exactly of the fields
title, titleTemplate, base, link, meta, style, script, noscript, htmlAttrs
and bodyAttrs, and the final document head merges the contributed head
objects (appending their tag lists in order) and deduplicates the
resulting tag lists, which afterwards hold each tag once and exactly the
contributed tags. -/
theorem metaObject_fields_and_final_head :
    (∀ m : MetaObject,
      m = MetaObject.mk m.title m.titleTemplate m.base m.link m.meta m.style
        m.script m.noscript m.htmlAttrs m.bodyAttrs)
    ∧ (∀ contribs : List MetaObject,
      tagsOf (finalHead contribs).meta =
          dedupeTags ((contribs.map (fun c => tagsOf c.meta)).flatten)
        ∧ tagsOf (finalHead contribs).link =
          dedupeTags ((contribs.map (fun c => tagsOf c.link)).flatten))
    ∧ (∀ l : List HeadTag,
      (dedupeTags l).Nodup ∧ ∀ t : HeadTag, t ∈ dedupeTags l ↔ t ∈ l) := by
  refine ⟨fun m => rfl, fun contribs => ⟨?_, ?_⟩, fun l => ⟨?_, fun t => ?_⟩⟩
  · show tagsOf ((contribs.foldl mergeMeta emptyMeta).meta.map dedupeTags) = _
    rw [tagsOf_map_dedupeTags, foldl_mergeMeta_meta]
    rfl
  · show tagsOf ((contribs.foldl mergeMeta emptyMeta).link.map dedupeTags) = _
    rw [tagsOf_map_dedupeTags, foldl_mergeMeta_link]
    rfl
  · exact nodup_dedupeTagsAux l []
  · rw [dedupeTags, mem_dedupeTagsAux]
    simp

/-! Lifecycle hooks.  The hook runner (built on the `hookable` dependency
of package.json line 64) and the call sites firing the lifecycle hooks are
not part of the source snapshot, so the fixed documented firing order is
modelled from the specification text. -/

/-- Modelled from the spec: the documented lifecycle points at which the
hooks registered by modules are fired (config resolved, build start, build
done, ...). -/
inductive LifecycleHook where
  | ready : LifecycleHook
  | configResolved : LifecycleHook
  | buildBefore : LifecycleHook
  | buildDone : LifecycleHook
  | close : LifecycleHook
deriving Repr, DecidableEq

/-- Modelled from the spec: the fixed, documented lifecycle order. -/
def documentedOrder : List LifecycleHook :=
  [LifecycleHook.ready, LifecycleHook.configResolved,
    LifecycleHook.buildBefore, LifecycleHook.buildDone, LifecycleHook.close]

/-- Modelled from the spec: one run of the framework fires the lifecycle
hooks in the documented order; at each point it runs the callbacks the
modules registered for that hook.  The trace pairs every fired hook with
the callbacks run at it. -/
def runLifecycle {α : Type} (regs : LifecycleHook → List α) :
    List (LifecycleHook × List α) :=
  documentedOrder.map (fun h => (h, regs h))

/-- Claim C9: in every run, whatever the modules registered, the observed
sequence of fired hooks is exactly the documented lifecycle order — never
a permutation of it (the order has no duplicate, so any reordering would
differ) — and each hook runs exactly the callbacks registered for it. -/
theorem lifecycle_hooks_fire_in_documented_order :
    (∀ (α : Type) (regs : LifecycleHook → List α),
      (runLifecycle regs).map Prod.fst = documentedOrder
      ∧ (runLifecycle regs).map Prod.snd = documentedOrder.map regs)
    ∧ documentedOrder.Nodup := by
  exact ⟨fun α regs => ⟨rfl, rfl⟩, by decide⟩

/-! Dev server.  The watch loop (built on the `chokidar` dependency of
package.json line 54) is not part of the source snapshot, so it is
modelled from the specification text: event-driven orchestration in which
every observed file-system change triggers a rebuild/reload cycle. -/

/-- An action the dev-server takes in response to a watched change. -/
inductive DevAction where
  | rebuild (path : String) : DevAction
  | reload (path : String) : DevAction
deriving Repr, DecidableEq

/-- Modelled from the spec: the dev-server processes the observed
file-system change events in order; each change triggers a rebuild and
then a reload of the affected modules. -/
def devServerProcess (events : List String) : List DevAction :=
  events.flatMap (fun p => [DevAction.rebuild p, DevAction.reload p])

/-- Claim C10: every file-system change event observed while the
dev-server runs leads to a rebuild and a reload of the affected modules. -/
theorem devServer_rebuilds_and_reloads_every_change (events : List String)
    (p : String) (hp : p ∈ events) :
    DevAction.rebuild p ∈ devServerProcess events
    ∧ DevAction.reload p ∈ devServerProcess events := by
  constructor
  · rw [devServerProcess, List.mem_flatMap]
    exact ⟨p, hp, by simp⟩
  · rw [devServerProcess, List.mem_flatMap]
    exact ⟨p, hp, by simp⟩

/-- Witness for C10 at a concrete change event. -/
theorem devServer_rebuilds_and_reloads_every_change_witness :
    DevAction.rebuild "pages/index.vue" ∈
        devServerProcess ["pages/index.vue", "app.vue"]
      ∧ DevAction.reload "pages/index.vue" ∈
        devServerProcess ["pages/index.vue", "app.vue"] :=
  devServer_rebuilds_and_reloads_every_change ["pages/index.vue", "app.vue"]
    "pages/index.vue" (by decide)
